import Mathlib

/-!
Verification development for the transaction-resolution and raw-transaction
layer of the copernicus node (rpc/rawtransaction.go and the lutxo
AccessByTxid routine).  The Go code is shallowly embedded: pointers become
Option, the global chain/pool/utxo state becomes an explicit NodeState
record, and loops become fuel-indexed structural recursions whose fuel is
chosen to match the source's loop bounds exactly.
-/

/-- Transaction and block identifiers: 256-bit hashes, modelled as byte lists. -/
abbrev Hash := List Nat

/-- OutPoint from model/outpoint: one output of one transaction. -/
structure OutPoint where
  hash : Hash
  index : Nat
deriving DecidableEq

/-- Coin from model/utxo: one unspent output with its recorded block height. -/
structure Coin where
  value : Int
  height : Nat
  isCoinbase : Bool
deriving DecidableEq

/-- The coin view: point lookup from OutPoint to an optional Coin
(utxo.CacheView.GetCoin; a Go nil result is None). -/
abbrev CacheView := OutPoint → Option Coin

/-- Modelled from the spec: Coin.IsSpent is not under src/.  Per the spec's
data model a Coin's existence in the coin view is itself the statement
"this output is unspent"; an absent (nil) coin therefore counts as spent. -/
def IsSpent (c : Option Coin) : Bool := c.isNone

/-- The probing loop of lutxo.AccessByTxid: `for int(out.Index) < 11000`,
probing (hash, idx) and returning the first coin that is not spent.  The
fuel argument makes the recursion structural; AccessByTxid supplies fuel
11000, enough for the whole index range, so the fuel case never fires. -/
def accessByTxidGo (coinsCache : CacheView) (hsh : Hash) : Nat → Nat → Option Coin
  | _, 0 => none
  | idx, fuel + 1 =>
    if idx < 11000 then
      let alternate := coinsCache ⟨hsh, idx⟩
      if IsSpent alternate then accessByTxidGo coinsCache hsh (idx + 1) fuel
      else alternate
    else none

/-- lutxo.AccessByTxid: probe OutPoints (hash, 0), (hash, 1), ... below the
fixed ceiling 11000 and return the first unspent Coin, or nil (none). -/
def AccessByTxid (coinsCache : CacheView) (hsh : Hash) : Option Coin :=
  accessByTxidGo coinsCache hsh 0 11000

/-- TxIn from model/txin: previous outpoint, unlocking script, sequence. -/
structure TxIn where
  prevHash : Hash
  prevIndex : Nat
  scriptSig : List Nat
  sequence : Nat
deriving DecidableEq

/-- TxOut from model/txout: value in base units and locking script. -/
structure TxOut where
  value : Int
  scriptPubKey : List Nat
deriving DecidableEq

/-- Transaction from model/tx: version, lock time, inputs, outputs. -/
structure Tx where
  version : Int
  lockTime : Nat
  ins : List TxIn
  outs : List TxOut
deriving DecidableEq

/-- Modelled from the spec: the wire serialization lives in model/tx, not
under src/.  The spec fixes the serialized content (version, lock time,
ordered inputs, ordered outputs); it is modelled as an injective
length-prefixed byte encoding of exactly those fields. -/
def encInt (i : Int) : List Nat :=
  if 0 ≤ i then [0, i.toNat] else [1, (-i).toNat]

/-- Serialization of one input (see encInt). -/
def serializeTxIn (x : TxIn) : List Nat :=
  [x.prevHash.length] ++ x.prevHash ++ [x.prevIndex, x.scriptSig.length] ++
    x.scriptSig ++ [x.sequence]

/-- Serialization of one output (see encInt). -/
def serializeTxOut (o : TxOut) : List Nat :=
  encInt o.value ++ [o.scriptPubKey.length] ++ o.scriptPubKey

/-- Serialization of a whole transaction (see encInt). -/
def serializeTx (t : Tx) : List Nat :=
  encInt t.version ++ [t.ins.length] ++ (t.ins.map serializeTxIn).flatten ++
    [t.outs.length] ++ (t.outs.map serializeTxOut).flatten ++ [t.lockTime]

/-- Modelled from the spec: a transaction's 256-bit identifier is the hash of
its serialization (util double-SHA256, not under src/); the hash function is
modelled by the injective serialization itself. -/
def Tx.TxHash (t : Tx) : Hash := serializeTx t

/-- Block index entry from model/blockindex: block hash, height, header time. -/
structure BlockIndex where
  blockHash : Hash
  height : Nat
  headerTime : Nat
deriving DecidableEq

/-- Block from model/block: its transaction list. -/
structure Block where
  txs : List Tx
deriving DecidableEq

/-- The ambient node state the handlers read: the pending pool
(mempool.Gpool.FindTx), the tx-index flag (chain.GTxIndex), the utxo cache,
the active chain's index-by-height (chain.GlobalChain.GetIndex), the block
store (chain.ReadBlockFromDisk), index-by-hash (FindBlockIndex), active-chain
membership (Contains) and the active height (Height). -/
structure NodeState where
  pool : Hash → Option Tx
  gTxIndex : Bool
  utxoCache : CacheView
  chainIndex : Nat → Option BlockIndex
  readBlock : BlockIndex → Option Block
  findBlockIndex : Hash → Option BlockIndex
  chainContains : BlockIndex → Bool
  chainHeight : Int

/-- rpc.GetTransaction: pool lookup first; the tx-index branch in the source
reads the index but discards the result; then, when allowSlow, the coin-view
probe recovers a candidate height whose block is scanned for an exact hash
match. -/
def GetTransaction (st : NodeState) (hsh : Hash) (allowSlow : Bool) :
    Option Tx × Option Hash × Bool :=
  match st.pool hsh with
  | some entry => (some entry, none, true)
  | none =>
    let indexSlow : Option BlockIndex :=
      if allowSlow then
        let coin := AccessByTxid st.utxoCache hsh
        if IsSpent coin then none
        else
          match coin with
          | some c => st.chainIndex c.height
          | none => none
      else none
    match indexSlow with
    | some bidx =>
      match st.readBlock bidx with
      | some bk =>
        match bk.txs.find? (fun t => decide (hsh = Tx.TxHash t)) with
        | some t => (some t, some bidx.blockHash, true)
        | none => (none, none, false)
      | none => (none, none, false)
    | none => (none, none, false)

/-- Hex rendering of one nibble (hex.EncodeToString helper). -/
def hexDigit (n : Nat) : Char :=
  if n < 10 then Char.ofNat (48 + n) else Char.ofNat (87 + n)

/-- hex.EncodeToString: two lowercase hex digits per byte. -/
def hexEncode (bs : List Nat) : String :=
  String.mk ((bs.map (fun b => [hexDigit (b / 16 % 16), hexDigit (b % 16)])).flatten)

/-- util.Hash.ToString (display form of a hash), modelled as the hex of the
byte-reversed hash. -/
def hashToString (h : Hash) : String := hexEncode h.reverse

/-- Push-data opcode bounds used by the disassembler (model/opcodes). -/
def OP_PUSHDATA1 : Nat := 76

/-- Second push-data length opcode (two length bytes). -/
def OP_PUSHDATA2 : Nat := 77

/-- Last push-data opcode (four length bytes); the disassembler's push range
is [0, OP_PUSHDATA4]. -/
def OP_PUSHDATA4 : Nat := 78

/-- Modelled from the spec: script.Script.GetOp is not under src/.  Per the
spec a script decodes left to right one operation at a time: a push-data
opcode carries 0..N literal payload bytes (direct pushes below OP_PUSHDATA1
carry their own length; OP_PUSHDATA1/2/4 read a 1/2/4-byte little-endian
length), a truncated length or out-of-range payload index is a decode
failure, and any other byte is a plain opcode.  Returns
(bytes consumed after the opcode byte, opcode, payload). -/
def getOp (b : List Nat) (i : Nat) : Option (Nat × Nat × List Nat) :=
  match b.drop i with
  | [] => none
  | op :: rest =>
    if op < OP_PUSHDATA1 then
      if rest.length < op then none
      else some (op, op, rest.take op)
    else if op = OP_PUSHDATA1 then
      match rest with
      | [] => none
      | n :: rest1 => if rest1.length < n then none else some (1 + n, op, rest1.take n)
    else if op = OP_PUSHDATA2 then
      match rest with
      | n0 :: n1 :: rest2 =>
        let n := n0 + 256 * n1
        if rest2.length < n then none else some (2 + n, op, rest2.take n)
      | _ => none
    else if op = OP_PUSHDATA4 then
      match rest with
      | n0 :: n1 :: n2 :: n3 :: rest4 =>
        let n := n0 + 256 * n1 + 65536 * n2 + 16777216 * n3
        if rest4.length < n then none else some (4 + n, op, rest4.take n)
      | _ => none
    else some (0, op, [])

/-- Little-endian byte list to Nat. -/
def leBytesToNat : List Nat → Nat
  | [] => 0
  | b :: bs => b + 256 * leBytesToNat bs

/-- Modelled from the spec: script.GetCScriptNum is not under src/.  Per the
spec a push payload of at most four bytes is read as a signed script integer:
little-endian magnitude whose top bit of the last byte is the sign. -/
def decodeScriptNum (vch : List Nat) : Int :=
  if vch = [] then 0
  else
    let m := leBytesToNat vch
    let signBit := 2 ^ (8 * vch.length - 1)
    if m < signBit then (m : Int) else -(((m - signBit : Nat)) : Int)

/-- Modelled from the spec: the opcode mnemonic table (opcodes.GetOpName) is
not under src/; per the spec a non-push opcode renders as its canonical
mnemonic, modelled as an injective rendering of the opcode byte. -/
def getOpName (op : Nat) : String := "OP_" ++ toString op

/-- The tokenization loop of rpc.ScriptToAsmStr.  One step per decoded
operation: a space before every token after the first, "[error]" and stop
when GetOp fails, decimal script-number rendering for payloads of at most
four bytes, hex for larger payloads (in the source the sighash annotation
is commented out, so both arms of the signature-decode branch render plain
hex), and the mnemonic for non-push opcodes.  Fuel makes the recursion
structural; the entry point supplies fuel b.length + 1, enough because each
operation consumes at least one byte. -/
def scriptToAsmStrGo (b : List Nat) (attemptSighashDecode : Bool) :
    Nat → String → Nat → String
  | 0, str, _ => str
  | fuel + 1, str, i =>
    if i < b.length then
      let str1 := if str.length ≠ 0 then str ++ " " else str
      match getOp b i with
      | none => str1 ++ "[error]"
      | some (consumed, op, vch) =>
        let str2 :=
          if op ≤ OP_PUSHDATA4 then
            if vch.length ≤ 4 then str1 ++ toString (decodeScriptNum vch)
            else str1 ++ hexEncode vch
          else str1 ++ getOpName op
        scriptToAsmStrGo b attemptSighashDecode fuel str2 (i + 1 + consumed)
    else str

/-- rpc.ScriptToAsmStr: disassemble a raw script byte sequence into a
space-separated token string. -/
def ScriptToAsmStr (b : List Nat) (attemptSighashDecode : Bool) : String :=
  scriptToAsmStrGo b attemptSighashDecode (b.length + 1) "" 0

/-- RPC error payloads raised by the handlers (btcjson error codes). -/
inductive RPCErr where
  | invalidAddressOrKey (msg : String)
  | invalidParameter (msg : String)
  | decodeHex (msg : String)
deriving DecidableEq

/-- The all-zero null hash (util.Hash zero value). -/
def nullHash : Hash := List.replicate 32 0

/-- Modelled from the spec: util.Hash.IsNull is not under src/.  A hash is
null when it is the zero value; an absent (nil) hash pointer counts as null,
matching the spec's optional confirming-block fields for unconfirmed
transactions. -/
def hashIsNull : Option Hash → Bool
  | none => true
  | some h => decide (h = nullHash)

/-- Modelled from the spec: tx.Tx.IsCoinBase is not under src/.  Per the
spec's data model a coinbase transaction is distinguished by a single input
referencing the null outpoint. -/
def Tx.IsCoinBase (t : Tx) : Bool :=
  match t.ins with
  | [x] => decide (x.prevHash = nullHash) && decide (x.prevIndex = 4294967295)
  | _ => false

/-- btcjson.Vin: one rendered transaction input.  Fields the Go code leaves
at their zero value are modelled as none. -/
structure Vin where
  coinbase : Option String
  txid : Option String
  vout : Option Nat
  scriptSigAsm : Option String
  scriptSigHex : Option String
  sequence : Nat
deriving DecidableEq

/-- btcjson.ScriptPubKeyResult: rpc.ScriptPubKeyToJSON in the source returns
the zero value (the function body is a stub returning an empty result). -/
structure ScriptPubKeyResult where
  asm : String
  hex : String
deriving DecidableEq

/-- rpc.ScriptPubKeyToJSON: returns the empty result, exactly as the source. -/
def ScriptPubKeyToJSON (s : List Nat) (includeHex : Bool) : ScriptPubKeyResult :=
  { asm := "", hex := "" }

/-- btcjson.Vout: one rendered transaction output. -/
structure Vout where
  value : Int
  n : Nat
  scriptPubKey : ScriptPubKeyResult
deriving DecidableEq

/-- rpc.createVinList: coinbase inputs render their script as hex in the
coinbase field; ordinary inputs render previous outpoint, asm and hex. -/
def createVinList (t : Tx) : List Vin :=
  t.ins.map fun x =>
    if t.IsCoinBase then
      { coinbase := some (hexEncode x.scriptSig), txid := none, vout := none,
        scriptSigAsm := none, scriptSigHex := none, sequence := x.sequence }
    else
      { coinbase := none, txid := some (hashToString x.prevHash),
        vout := some x.prevIndex,
        scriptSigAsm := some (ScriptToAsmStr x.scriptSig true),
        scriptSigHex := some (hexEncode x.scriptSig), sequence := x.sequence }

/-- rpc.createVoutList: value, index and the (stubbed) script rendering. -/
def createVoutList (t : Tx) : List Vout :=
  (List.range t.outs.length).map fun i =>
    match t.outs.get? i with
    | some o => { value := o.value, n := i, scriptPubKey := ScriptPubKeyToJSON o.scriptPubKey true }
    | none => { value := 0, n := i, scriptPubKey := { asm := "", hex := "" } }

/-- btcjson.TxRawResult: the verbose getrawtransaction reply.  The block
fields are optional: the Go code assigns them only when a confirming block
hash is present, otherwise they stay at their zero value (none here). -/
structure TxRawResult where
  txid : String
  hash : String
  size : Nat
  version : Int
  lockTime : Nat
  vin : List Vin
  vout : List Vout
  blockHash : Option String
  confirmations : Option Int
  time : Option Nat
  blocktime : Option Nat
deriving DecidableEq

/-- rpc.createTxRawResult: build the verbose reply; when the confirming block
hash is not null, look its index up and, when it is on the active chain, fill
confirmations and times. -/
def createTxRawResult (st : NodeState) (t : Tx) (hashBlock : Option Hash) :
    TxRawResult :=
  let h := t.TxHash
  let base : TxRawResult :=
    { txid := hashToString h, hash := hashToString h,
      size := (serializeTx t).length, version := t.version,
      lockTime := t.lockTime, vin := createVinList t, vout := createVoutList t,
      blockHash := none, confirmations := none, time := none, blocktime := none }
  if hashIsNull hashBlock then base
  else
    match hashBlock with
    | none => base
    | some hb =>
      let base1 := { base with blockHash := some (hashToString hb) }
      match st.findBlockIndex hb with
      | none => base1
      | some bindex =>
        if st.chainContains bindex then
          { base1 with confirmations := some (st.chainHeight - (bindex.height : Int) + 1),
                       time := some bindex.headerTime, blocktime := some bindex.headerTime }
        else
          { base1 with confirmations := some 0 }

/-- The getrawtransaction reply: serialized hex, or the verbose structure. -/
inductive GetRawReply where
  | hex (s : String)
  | raw (r : TxRawResult)
deriving DecidableEq

/-- rpc.handleGetRawTransaction (after txid parsing, which is external
util code): verbose defaults to false, the locator runs with the slow path
allowed, a miss maps to InvalidAddressOrKey with an index-dependent message,
a hit serializes (and, when verbose, renders) the transaction. -/
def handleGetRawTransaction (st : NodeState) (txid : Hash)
    (verboseParam : Option Int) : Except RPCErr GetRawReply :=
  let verbose : Bool :=
    match verboseParam with
    | some v => decide (v ≠ 0)
    | none => false
  match GetTransaction st txid true with
  | (some t, hashBlock, true) =>
    let strHex := hexEncode (serializeTx t)
    if verbose then Except.ok (GetRawReply.raw (createTxRawResult st t hashBlock))
    else Except.ok (GetRawReply.hex strHex)
  | (none, _, true) =>
    -- unreachable: the locator returns a transaction whenever found is true
    Except.error (RPCErr.invalidAddressOrKey "")
  | (_, _, false) =>
    if st.gTxIndex then
      Except.error (RPCErr.invalidAddressOrKey "No such mempool or blockchain transaction")
    else
      Except.error (RPCErr.invalidAddressOrKey "No such mempool transaction. Use -txindex to enable blockchain transaction queries. Use gettransaction for wallet transactions.")

/-- Go int64 conversion of a rational: truncation toward zero
(`outValue := int64(cost * 1e8)`; the decimal request amount is modelled as
an exact rational). -/
def truncQ (q : ℚ) : Int :=
  if 0 ≤ q then ((q.num.toNat / q.den : Nat) : Int)
  else -(((-q).num.toNat / q.den : Nat) : Int)

/-- Modelled from the spec: amount.MaxMoney is not under src/.  The spec's
money range has inclusive lower bound zero and a fixed consensus upper bound:
the total currency cap, 21 000 000 coins of 10^8 base units. -/
def maxMoney : Int := 21000000 * 100000000

/-- Modelled from the spec: amount.MoneyRange is not under src/: a value is
in range when 0 <= value <= maxMoney, both bounds inclusive. -/
def MoneyRange (v : Int) : Bool := decide (0 ≤ v) && decide (v ≤ maxMoney)

/-- The per-destination amount validation of rpc.handleCreateRawTransaction:
convert the decimal amount to base units with eight fractional digits
(`int64(cost * 1e8)`) and reject with InvalidParameter when the result is
outside the money range. -/
def checkAmount (cost : ℚ) : Except RPCErr Int :=
  let outValue := truncQ (cost * 100000000)
  if MoneyRange outValue then Except.ok outValue
  else Except.error (RPCErr.invalidParameter "Invalid amount")

/-- One createrawtransaction input request: previous txid (already parsed
from hex, which is external util code) and output index. -/
structure CreateInput where
  txid : Hash
  vout : Int
deriving DecidableEq

/-- The createrawtransaction request: inputs, destination amounts (address
string to decimal amount) and optional lock time. -/
structure CreateRawTxCmd where
  inputs : List CreateInput
  amounts : List (String × ℚ)
  lockTime : Option Int

/-- The outcome of rpc.handleCreateRawTransaction: the serialized hex, an
RPC error, or a fault (a nil-pointer dereference in the Go source). -/
inductive CreateRawResult where
  | ok (hex : String)
  | rpcError (e : RPCErr)
  | nilDeref (site : String)
deriving DecidableEq

/-- wire.MaxTxInSequenceNum. -/
def maxTxInSequenceNum : Int := 4294967295

/-- tx.Tx.AddTxIn: append one input. -/
def Tx.addTxIn (t : Tx) (x : TxIn) : Tx := { t with ins := t.ins ++ [x] }

/-- tx.Tx.AddTxOut: append one output. -/
def Tx.addTxOut (t : Tx) (o : TxOut) : Tx := { t with outs := t.outs ++ [o] }

/-- The serialization tail of rpc.handleCreateRawTransaction
(`transaction.Serialize(buf)`): the source reaches it with the transaction
pointer still nil, which is a nil dereference. -/
def crSerializePhase (transaction : Option Tx) : CreateRawResult :=
  match transaction with
  | none => CreateRawResult.nilDeref "Serialize on nil transaction"
  | some t => CreateRawResult.ok (hexEncode (serializeTx t))

/-- The destination loop of rpc.handleCreateRawTransaction: decode the
address (the codec is external; a decoder function stands for
bitaddr.AddressFromString composed with EncodeToPubKeyHash), validate the
amount, then AddTxOut — a nil dereference when the transaction is nil. -/
def crAmountsLoop (decodeAddr : String → Option (List Nat))
    (transaction : Option Tx) : List (String × ℚ) → CreateRawResult
  | [] => crSerializePhase transaction
  | (address, cost) :: rest =>
    match decodeAddr address with
    | none => CreateRawResult.rpcError
        (RPCErr.invalidAddressOrKey ("Invalid Bitcoin address: " ++ address))
    | some pubKeyHashScript =>
      match checkAmount cost with
      | Except.error e => CreateRawResult.rpcError e
      | Except.ok outValue =>
        match transaction with
        | none => CreateRawResult.nilDeref "AddTxOut on nil transaction"
        | some t =>
          crAmountsLoop decodeAddr
            (some (t.addTxOut { value := outValue, scriptPubKey := pubKeyHashScript }))
            rest

/-- The input loop of rpc.handleCreateRawTransaction: reject a negative
vout, then read the lock time off the transaction to pick the sequence —
a nil dereference when the transaction is nil (`transaction.GetLockTime()`). -/
def crInputsLoop (decodeAddr : String → Option (List Nat))
    (amounts : List (String × ℚ)) (transaction : Option Tx) :
    List CreateInput → CreateRawResult
  | [] => crAmountsLoop decodeAddr transaction amounts
  | input :: rest =>
    if input.vout < 0 then
      CreateRawResult.rpcError
        (RPCErr.invalidParameter "Invalid parameter, vout must be positive")
    else
      match transaction with
      | none => CreateRawResult.nilDeref "GetLockTime on nil transaction"
      | some t =>
        let sequence : Nat := if t.lockTime ≠ 0 then 4294967294 else 4294967295
        crInputsLoop decodeAddr amounts
          (some (t.addTxIn { prevHash := input.txid, prevIndex := input.vout.toNat,
                             scriptSig := [], sequence := sequence }))
          rest

/-- rpc.handleCreateRawTransaction.  In the source
`transaction = tx.NewTx(...)` sits after the `return` statement inside the
invalid-locktime branch and is unreachable, so the `var transaction *tx.Tx`
declaration leaves the pointer nil on every path. -/
def handleCreateRawTransaction (decodeAddr : String → Option (List Nat))
    (c : CreateRawTxCmd) : CreateRawResult :=
  let transaction : Option Tx := none
  match c.lockTime with
  | some lt =>
    if lt < 0 ∨ lt > maxTxInSequenceNum then
      CreateRawResult.rpcError (RPCErr.invalidParameter "Locktime out of range")
    else crInputsLoop decodeAddr c.amounts transaction c.inputs
  | none => crInputsLoop decodeAddr c.amounts transaction c.inputs

/-- Byte-stream reader for the wire decoder: one byte. -/
def readByte : List Nat → Option (Nat × List Nat)
  | [] => none
  | b :: bs => some (b, bs)

/-- Byte-stream reader: a length-prefixed chunk. -/
def readChunk (bs : List Nat) : Option (List Nat × List Nat) :=
  match readByte bs with
  | none => none
  | some (n, rest) =>
    if rest.length < n then none else some (rest.take n, rest.drop n)

/-- Byte-stream reader: a signed integer in the encInt form. -/
def readInt (bs : List Nat) : Option (Int × List Nat) :=
  match bs with
  | 0 :: m :: rest => some ((m : Int), rest)
  | 1 :: m :: rest => some (-(m : Int), rest)
  | _ => none

/-- Byte-stream reader: one serialized input (inverse of serializeTxIn). -/
def readTxIn (bs : List Nat) : Option (TxIn × List Nat) :=
  match readChunk bs with
  | none => none
  | some (prevHash, r1) =>
    match readByte r1 with
    | none => none
    | some (prevIndex, r2) =>
      match readChunk r2 with
      | none => none
      | some (scriptSig, r3) =>
        match readByte r3 with
        | none => none
        | some (sequence, r4) =>
          some ({ prevHash := prevHash, prevIndex := prevIndex,
                  scriptSig := scriptSig, sequence := sequence }, r4)

/-- Byte-stream reader: one serialized output (inverse of serializeTxOut). -/
def readTxOut (bs : List Nat) : Option (TxOut × List Nat) :=
  match readInt bs with
  | none => none
  | some (value, r1) =>
    match readChunk r1 with
    | none => none
    | some (scriptPubKey, r2) =>
      some ({ value := value, scriptPubKey := scriptPubKey }, r2)

/-- Byte-stream reader: a counted list of inputs. -/
def readTxIns : Nat → List Nat → Option (List TxIn × List Nat)
  | 0, bs => some ([], bs)
  | n + 1, bs =>
    match readTxIn bs with
    | none => none
    | some (x, rest) =>
      match readTxIns n rest with
      | none => none
      | some (xs, rest1) => some (x :: xs, rest1)

/-- Byte-stream reader: a counted list of outputs. -/
def readTxOuts : Nat → List Nat → Option (List TxOut × List Nat)
  | 0, bs => some ([], bs)
  | n + 1, bs =>
    match readTxOut bs with
    | none => none
    | some (o, rest) =>
      match readTxOuts n rest with
      | none => none
      | some (os, rest1) => some (o :: os, rest1)

/-- Modelled from the spec: tx.Tx.Unserialize is not under src/.  The spec
fixes the wire content; the decoder inverts the modelled serialization and
fails (a decode error, never a crash) on malformed bytes. -/
def unserializeTx (bs : List Nat) : Option Tx :=
  match readInt bs with
  | none => none
  | some (version, r1) =>
    match readByte r1 with
    | none => none
    | some (insCount, r2) =>
      match readTxIns insCount r2 with
      | none => none
      | some (ins, r3) =>
        match readByte r3 with
        | none => none
        | some (outsCount, r4) =>
          match readTxOuts outsCount r4 with
          | none => none
          | some (outs, r5) =>
            match readByte r5 with
            | none => none
            | some (lockTime, _) =>
              some { version := version, lockTime := lockTime, ins := ins, outs := outs }

/-- The haveChain loop of rpc.handleSendRawTransaction:
`for i := 0; !haveChain && i < n; i++ { haveChain = !GetCoin(hash, i).IsSpent() }`.
Fuel makes the recursion structural; the handler supplies fuel n, enough for
the whole index range. -/
def haveChainGo (view : CacheView) (hsh : Hash) (n : Nat) : Nat → Nat → Bool
  | _, 0 => false
  | i, fuel + 1 =>
    if i < n then
      if IsSpent (view ⟨hsh, i⟩) then haveChainGo view hsh n (i + 1) fuel
      else true
    else false

/-- The haveChain computation of rpc.handleSendRawTransaction over the
transaction's own output indices. -/
def computeHaveChain (view : CacheView) (hsh : Hash) (n : Nat) : Bool :=
  haveChainGo view hsh n 0 n

/-- The sendrawtransaction request: wire bytes (hex decoding is external)
and the optional high-fee opt-out. -/
structure SendRawCmd where
  hexTx : List Nat
  allowHighFees : Option Bool

/-- rpc.handleSendRawTransaction: deserialize, hash, compute the fee ceiling
and the haveChain flag (both computed but never branched on), trigger
reprocessing on a pool hit (an external side effect), and reply with the
transaction hash string. -/
def handleSendRawTransaction (st : NodeState) (c : SendRawCmd) :
    Except RPCErr String :=
  match unserializeTx c.hexTx with
  | none => Except.error (RPCErr.decodeHex "TX decode failed")
  | some transaction =>
    let hash := transaction.TxHash
    let maxTxFee : Nat := 10000
    let maxRawTxFee : Nat :=
      match c.allowHighFees with
      | some true => 0
      | _ => maxTxFee
    let haveChain := computeHaveChain st.utxoCache hash transaction.outs.length
    -- `entry := mempool.Gpool.FindTx(hash); if entry != nil { ProcessForRpc }`
    -- is an external side effect; the reply is the hash string regardless.
    let _ := maxRawTxFee
    let _ := haveChain
    Except.ok (hashToString hash)

/-- Helper: when every probed index in [idx, 11000) is spent, the probing
loop reports not-found, for any fuel. -/
theorem accessByTxidGo_none (view : CacheView) (hsh : Hash) :
    ∀ (fuel idx : Nat),
      (∀ i, idx ≤ i → i < 11000 → IsSpent (view ⟨hsh, i⟩) = true) →
      accessByTxidGo view hsh idx fuel = none := by
  intro fuel
  induction fuel with
  | zero => intro idx _; rfl
  | succ fuel ih =>
    intro idx h
    by_cases hidx : idx < 11000
    · have hs : IsSpent (view ⟨hsh, idx⟩) = true := h idx le_rfl hidx
      simp only [accessByTxidGo, if_pos hidx, hs, if_true]
      exact ih (idx + 1) fun i h1 h2 => h i (by omega) h2
    · simp only [accessByTxidGo, if_neg hidx]

/-- Helper: the probing loop returns the entry at the first unspent index it
can reach. -/
theorem accessByTxidGo_first (view : CacheView) (hsh : Hash) :
    ∀ (fuel idx i : Nat), idx ≤ i → i < 11000 → i < idx + fuel →
      IsSpent (view ⟨hsh, i⟩) = false →
      (∀ j, idx ≤ j → j < i → IsSpent (view ⟨hsh, j⟩) = true) →
      accessByTxidGo view hsh idx fuel = view ⟨hsh, i⟩ := by
  intro fuel
  induction fuel with
  | zero => intro idx i h1 _ h3 _ _; omega
  | succ fuel ih =>
    intro idx i h1 h2 h3 h4 h5
    have hidx : idx < 11000 := by omega
    rcases eq_or_lt_of_le h1 with rfl | hlt
    · simp only [accessByTxidGo, if_pos hidx, h4, Bool.false_eq_true, if_false]
    · have hs : IsSpent (view ⟨hsh, idx⟩) = true := h5 idx le_rfl hlt
      simp only [accessByTxidGo, if_pos hidx, hs, if_true]
      exact ih (idx + 1) i (by omega) h2 (by omega) h4 fun j ha hb => h5 j (by omega) hb

/-- Helper: the pool branch of the locator wins whenever the pool has the
hash, whatever the rest of the state. -/
theorem getTransaction_of_pool (st : NodeState) (hsh : Hash) (t : Tx)
    (hp : st.pool hsh = some t) (slow : Bool) :
    GetTransaction st hsh slow = (some t, none, true) := by
  simp [GetTransaction, hp]

/-- Claim C1: for every transaction hash present in the pending pool,
GetTransaction returns the pooled transaction with no confirming block hash
and found = true, for allowSlow true and false alike, whatever the tx-index
flag and the coin view contain. -/
theorem getTransaction_pool_precedence (st : NodeState) (hsh : Hash) (t : Tx)
    (hp : st.pool hsh = some t) :
    GetTransaction st hsh true = (some t, none, true) ∧
    GetTransaction st hsh false = (some t, none, true) :=
  ⟨getTransaction_of_pool st hsh t hp true, getTransaction_of_pool st hsh t hp false⟩

/-- Demo transaction: empty coinbase-less transaction. -/
def demoTx : Tx := { version := 1, lockTime := 0, ins := [], outs := [] }

/-- Demo state: the pool maps hash [9] to demoTx; the index flag is set and
the coin view is nonempty, to exercise pool precedence over both. -/
def demoState : NodeState :=
  { pool := fun h => if h = [9] then some demoTx else none,
    gTxIndex := true,
    utxoCache := fun p => if p.index = 0 then some { value := 3, height := 4, isCoinbase := false } else none,
    chainIndex := fun _ => none,
    readBlock := fun _ => none,
    findBlockIndex := fun _ => none,
    chainContains := fun _ => false,
    chainHeight := 0 }

/-- Witness for claim C1 at a concrete state. -/
theorem getTransaction_pool_precedence_witness :
    GetTransaction demoState [9] true = (some demoTx, none, true) ∧
    GetTransaction demoState [9] false = (some demoTx, none, true) :=
  getTransaction_pool_precedence demoState [9] demoTx (by rfl)

/-- Claim C2: AccessByTxid probes indices 0, 1, ... strictly upward below the
ceiling 11000 and returns the lowest-indexed unspent Coin; when every probed
index below the ceiling is spent it reports not-found, even if an unspent
output exists at or above the ceiling (the hypothesis constrains nothing
there). -/
theorem accessByTxid_first_unspent (view : CacheView) (hsh : Hash) :
    (∀ i, i < 11000 → IsSpent (view ⟨hsh, i⟩) = false →
      (∀ j, j < i → IsSpent (view ⟨hsh, j⟩) = true) →
      AccessByTxid view hsh = view ⟨hsh, i⟩)
  ∧ ((∀ i, i < 11000 → IsSpent (view ⟨hsh, i⟩) = true) →
      AccessByTxid view hsh = none) := by
  constructor
  · intro i hi hun hmin
    exact accessByTxidGo_first view hsh 11000 0 i (Nat.zero_le i) hi (by omega) hun
      fun j _ hb => hmin j hb
  · intro h
    exact accessByTxidGo_none view hsh 11000 0 fun i _ h2 => h i h2

/-- Demo unspent coin. -/
def demoCoin : Coin := { value := 5, height := 7, isCoinbase := false }

/-- Demo view with unspent outputs at indices 2 and 5 only. -/
def demoViewLow : CacheView :=
  fun p => if p.index = 2 ∨ p.index = 5 then some demoCoin else none

/-- Demo view whose only unspent output sits exactly at the ceiling 11000. -/
def demoViewHigh : CacheView :=
  fun p => if p.index = 11000 then some demoCoin else none

/-- Witness for claim C2: the lowest of two unspent indices is returned, and
a view whose only unspent output sits at the ceiling yields not-found. -/
theorem accessByTxid_first_unspent_witness :
    AccessByTxid demoViewLow [3] = some demoCoin ∧
    AccessByTxid demoViewHigh [3] = none := by
  constructor
  · have h := (accessByTxid_first_unspent demoViewLow [3]).1 2 (by omega)
      (by decide) (by decide)
    exact h.trans (by decide)
  · exact (accessByTxid_first_unspent demoViewHigh [3]).2
      (by intro i hi; have hne : ¬ (i = 11000) := by omega
          simp [demoViewHigh, IsSpent, hne])

/-- Claim C9: with the hash absent from the pool and every probed index
below the ceiling spent, GetTransaction with the slow path allowed returns
(nil, nil, false); the nil coin AccessByTxid signals not-found with counts
as spent, so the slow path degrades to not-found rather than faulting. -/
theorem getTransaction_slow_notfound (st : NodeState) (hsh : Hash)
    (hp : st.pool hsh = none)
    (hspent : ∀ i, i < 11000 → IsSpent (st.utxoCache ⟨hsh, i⟩) = true) :
    GetTransaction st hsh true = (none, none, false) := by
  have hA : AccessByTxid st.utxoCache hsh = none :=
    accessByTxidGo_none st.utxoCache hsh 11000 0 fun i _ h2 => hspent i h2
  simp [GetTransaction, hp, hA, IsSpent]

/-- Demo state with an empty pool and an empty coin view. -/
def demoStateEmpty : NodeState :=
  { pool := fun _ => none,
    gTxIndex := false,
    utxoCache := fun _ => none,
    chainIndex := fun _ => none,
    readBlock := fun _ => none,
    findBlockIndex := fun _ => none,
    chainContains := fun _ => false,
    chainHeight := 0 }

/-- Witness for claim C9 at a concrete empty state. -/
theorem getTransaction_slow_notfound_witness :
    GetTransaction demoStateEmpty [4] true = (none, none, false) :=
  getTransaction_slow_notfound demoStateEmpty [4] (by rfl) fun _ _ => by rfl

/-- Claim C3: when the slow path recovers an unspent Coin and loads the
block at the Coin's recorded height, but that block carries no transaction
whose hash equals the queried hash, GetTransaction reports not-found and
returns no transaction from that block. -/
theorem getTransaction_stale_hint (st : NodeState) (hsh : Hash) (c : Coin)
    (bidx : BlockIndex) (bk : Block)
    (hp : st.pool hsh = none)
    (hc : AccessByTxid st.utxoCache hsh = some c)
    (hidx : st.chainIndex c.height = some bidx)
    (hbk : st.readBlock bidx = some bk)
    (hmiss : ∀ t ∈ bk.txs, Tx.TxHash t ≠ hsh) :
    GetTransaction st hsh true = (none, none, false) := by
  have hfind : bk.txs.find? (fun t => decide (hsh = Tx.TxHash t)) = none := by
    rw [List.find?_eq_none]
    intro t ht
    simp only [decide_eq_true_eq]
    exact fun he => hmiss t ht he.symm
  simp [GetTransaction, hp, hc, IsSpent, hidx, hbk, hfind]

/-- Demo block transaction whose hash differs from the queried hash. -/
def demoTxB : Tx := { version := 2, lockTime := 0, ins := [], outs := [] }

/-- Demo block index entry at height 7. -/
def demoBidx : BlockIndex := { blockHash := [8, 8], height := 7, headerTime := 0 }

/-- Demo state realizing a stale height hint: the coin view has an unspent
coin for ([9], 2) recorded at height 7, but the block at height 7 contains
only a transaction with a different hash. -/
def demoStateStale : NodeState :=
  { pool := fun _ => none,
    gTxIndex := false,
    utxoCache := fun p => if p.hash = [9] ∧ p.index = 2 then some demoCoin else none,
    chainIndex := fun h => if h = 7 then some demoBidx else none,
    readBlock := fun b => if b = demoBidx then some { txs := [demoTxB] } else none,
    findBlockIndex := fun _ => none,
    chainContains := fun _ => false,
    chainHeight := 0 }

/-- Witness for claim C3 at the stale-hint state. -/
theorem getTransaction_stale_hint_witness :
    GetTransaction demoStateStale [9] true = (none, none, false) := by
  have hc : AccessByTxid demoStateStale.utxoCache [9] = some demoCoin := by
    have h1 := accessByTxidGo_first demoStateStale.utxoCache [9] 11000 0 2
      (by omega) (by omega) (by omega) (by decide) (by decide)
    exact h1.trans (by decide)
  exact getTransaction_stale_hint demoStateStale [9] demoCoin demoBidx
    { txs := [demoTxB] } (by rfl) hc (by decide) (by decide) (by decide)

/-- Claim C10: a transaction located in the pending pool (nil confirming
hash) renders verbosely without faulting, and the reply's block hash,
confirmations, time and block-time stay unset; createTxRawResult treats the
absent block hash as null. -/
theorem getRawTransaction_pool_verbose (st : NodeState) (txid : Hash) (t : Tx)
    (v : Int) (hp : st.pool txid = some t) (hv : v ≠ 0) :
    handleGetRawTransaction st txid (some v) =
      Except.ok (GetRawReply.raw (createTxRawResult st t none))
  ∧ (createTxRawResult st t none).blockHash = none
  ∧ (createTxRawResult st t none).confirmations = none
  ∧ (createTxRawResult st t none).time = none
  ∧ (createTxRawResult st t none).blocktime = none := by
  have hg := getTransaction_of_pool st txid t hp true
  refine ⟨?_, ?_, ?_, ?_, ?_⟩
  · simp [handleGetRawTransaction, hg, hv]
  all_goals simp [createTxRawResult, hashIsNull]

/-- Witness for claim C10 at the concrete pool state. -/
theorem getRawTransaction_pool_verbose_witness :
    handleGetRawTransaction demoState [9] (some 1) =
      Except.ok (GetRawReply.raw (createTxRawResult demoState demoTx none))
  ∧ (createTxRawResult demoState demoTx none).blockHash = none
  ∧ (createTxRawResult demoState demoTx none).confirmations = none
  ∧ (createTxRawResult demoState demoTx none).time = none
  ∧ (createTxRawResult demoState demoTx none).blocktime = none :=
  getRawTransaction_pool_verbose demoState [9] demoTx 1 (by rfl) (by omega)

/-- Claim C4 (code bug evidence): in the source the only assignment to the
transaction pointer sits after the return statement of the invalid-locktime
branch, so every path runs with a nil transaction; a request with one input
faults at GetLockTime, a request with only destinations faults at AddTxOut,
and an empty request faults at Serialize — createrawtransaction never
succeeds on a valid request. -/
theorem createRawTransaction_nil_fault :
    handleCreateRawTransaction (fun _ => some [0])
      { inputs := [{ txid := [1], vout := 0 }], amounts := [("mkey", 1)],
        lockTime := none }
      = CreateRawResult.nilDeref "GetLockTime on nil transaction"
  ∧ handleCreateRawTransaction (fun _ => some [0])
      { inputs := [], amounts := [("mkey", 1)], lockTime := some 0 }
      = CreateRawResult.nilDeref "AddTxOut on nil transaction"
  ∧ handleCreateRawTransaction (fun _ => some [0])
      { inputs := [], amounts := [], lockTime := none }
      = CreateRawResult.nilDeref "Serialize on nil transaction" := by
  refine ⟨rfl, ?_, rfl⟩
  show crAmountsLoop (fun _ => some [0]) none [("mkey", 1)] =
    CreateRawResult.nilDeref "AddTxOut on nil transaction"
  have h1 : checkAmount 1 = Except.ok 100000000 := by
    have htr : truncQ ((100000000 : ℚ)) = 100000000 := by
      norm_num [truncQ]
    simp [checkAmount, htr, MoneyRange, maxMoney]
  simp [crAmountsLoop, h1]

/-- Helper: truncation toward zero of an integer rational is the integer. -/
theorem truncQ_intCast (n : Int) : truncQ (n : ℚ) = n := by
  rcases le_or_lt 0 n with h | h
  · have hq : (0 : ℚ) ≤ (n : ℚ) := by exact_mod_cast h
    simp [truncQ, hq, Rat.num_intCast, Rat.den_intCast, Int.toNat_of_nonneg h]
  · have hq : ¬ (0 : ℚ) ≤ (n : ℚ) := by
      simp only [not_le]
      exact_mod_cast h
    have hcast : (-(n : ℚ)) = ((-n : Int) : ℚ) := by push_cast; ring
    simp only [truncQ, if_neg hq, hcast, Rat.num_intCast, Rat.den_intCast]
    have hn : (0 : Int) ≤ -n := by omega
    simp [Int.toNat_of_nonneg hn]

/-- Helper: the amount check on an exact multiple of 10^-8 converts to that
many base units and tests the money range on it. -/
theorem checkAmount_int (n : Int) :
    checkAmount ((n : ℚ) / 100000000) =
      if MoneyRange n then Except.ok n
      else Except.error (RPCErr.invalidParameter "Invalid amount") := by
  have hq : ((n : ℚ) / 100000000) * 100000000 = (n : ℚ) := by
    field_simp
  simp only [checkAmount, hq, truncQ_intCast]

/-- Claim C5: a converted amount exactly at the money-range upper bound is
accepted, one base unit above is rejected with InvalidParameter, a negative
amount is rejected with InvalidParameter, and the conversion multiplies the
decimal amount by 10^8 (eight fractional decimal digits). -/
theorem checkAmount_boundary :
    checkAmount 21000000 = Except.ok maxMoney
  ∧ checkAmount (21000000 + 1 / 100000000) =
      Except.error (RPCErr.invalidParameter "Invalid amount")
  ∧ checkAmount (-1) =
      Except.error (RPCErr.invalidParameter "Invalid amount")
  ∧ (∀ n : Int, 0 ≤ n → n ≤ maxMoney →
      checkAmount ((n : Int) / (100000000 : ℚ)) = Except.ok n) := by
  refine ⟨?_, ?_, ?_, ?_⟩
  · have h := checkAmount_int maxMoney
    have heq : ((maxMoney : Int) : ℚ) / 100000000 = 21000000 := by
      norm_num [maxMoney]
    have hmr : MoneyRange maxMoney = true := by decide
    rw [heq, hmr, if_pos rfl] at h
    exact h
  · have h := checkAmount_int (maxMoney + 1)
    have heq : ((maxMoney + 1 : Int) : ℚ) / 100000000 = 21000000 + 1 / 100000000 := by
      norm_num [maxMoney]
    have hmr : MoneyRange (maxMoney + 1) = false := by decide
    rw [heq, hmr] at h
    simpa using h
  · have h := checkAmount_int (-100000000)
    have heq : ((-100000000 : Int) : ℚ) / 100000000 = -1 := by norm_num
    have hmr : MoneyRange (-100000000) = false := by decide
    rw [heq, hmr] at h
    simpa using h
  · intro n h0 hm
    have h := checkAmount_int n
    have hmr : MoneyRange n = true := by
      simp [MoneyRange, h0, hm]
    rw [hmr, if_pos rfl] at h
    exact h

/-- Witness for claim C5: three base units convert back from their decimal
form and are accepted. -/
theorem checkAmount_boundary_witness :
    checkAmount ((3 : Int) / (100000000 : ℚ)) = Except.ok 3 :=
  checkAmount_boundary.2.2.2 3 (by omega) (by norm_num [maxMoney])

/-- Claim C6: when decoding an operation fails at any position the
disassembler appends the literal token "[error]" to the string produced so
far, stops tokenizing, and returns that string; in particular a script whose
very first operation is malformed disassembles to exactly "[error]". -/
theorem scriptToAsmStr_error_token :
    (∀ (b : List Nat) (flag : Bool) (str : String) (i fuel : Nat),
        i < b.length → getOp b i = none →
        scriptToAsmStrGo b flag (fuel + 1) str i =
          (if str.length ≠ 0 then str ++ " " else str) ++ "[error]")
  ∧ (∀ (b : List Nat) (flag : Bool), b ≠ [] → getOp b 0 = none →
        ScriptToAsmStr b flag = "[error]") := by
  have h1 : ∀ (b : List Nat) (flag : Bool) (str : String) (i fuel : Nat),
      i < b.length → getOp b i = none →
      scriptToAsmStrGo b flag (fuel + 1) str i =
        (if str.length ≠ 0 then str ++ " " else str) ++ "[error]" := by
    intro b flag str i fuel hi hfail
    simp [scriptToAsmStrGo, hi, hfail]
  refine ⟨h1, ?_⟩
  intro b flag hb hfail
  have hlen : 0 < b.length := List.length_pos.mpr hb
  exact h1 b flag "" 0 b.length hlen hfail

/-- Witness for claim C6: a truncated OP_PUSHDATA1 (no length byte). -/
theorem scriptToAsmStr_error_token_witness :
    ScriptToAsmStr [76] true = "[error]" :=
  scriptToAsmStr_error_token.2 [76] true (by decide) (by decide)

/-- Helper: when every output index in [idx, n) is spent, the haveChain loop
reports false, for any fuel. -/
theorem haveChainGo_false (view : CacheView) (hsh : Hash) (n : Nat) :
    ∀ (fuel idx : Nat),
      (∀ i, idx ≤ i → i < n → IsSpent (view ⟨hsh, i⟩) = true) →
      haveChainGo view hsh n idx fuel = false := by
  intro fuel
  induction fuel with
  | zero => intro idx _; rfl
  | succ fuel ih =>
    intro idx h
    by_cases hidx : idx < n
    · have hs : IsSpent (view ⟨hsh, idx⟩) = true := h idx le_rfl hidx
      simp only [haveChainGo, if_pos hidx, hs, if_true]
      exact ih (idx + 1) fun i h1 h2 => h i (by omega) h2
    · simp only [haveChainGo, if_neg hidx]

/-- Helper: the haveChain loop returns true as soon as it reaches an unspent
index it has fuel for. -/
theorem haveChainGo_true (view : CacheView) (hsh : Hash) (n : Nat) :
    ∀ (fuel idx i : Nat), idx ≤ i → i < n → i < idx + fuel →
      IsSpent (view ⟨hsh, i⟩) = false →
      (∀ j, idx ≤ j → j < i → IsSpent (view ⟨hsh, j⟩) = true) →
      haveChainGo view hsh n idx fuel = true := by
  intro fuel
  induction fuel with
  | zero => intro idx i h1 _ h3 _ _; omega
  | succ fuel ih =>
    intro idx i h1 h2 h3 h4 h5
    have hidx : idx < n := by omega
    rcases eq_or_lt_of_le h1 with rfl | hlt
    · simp only [haveChainGo, if_pos hidx, h4, Bool.false_eq_true, if_false]
    · have hs : IsSpent (view ⟨hsh, idx⟩) = true := h5 idx le_rfl hlt
      simp only [haveChainGo, if_pos hidx, hs, if_true]
      exact ih (idx + 1) i (by omega) h2 (by omega) h4 fun j ha hb => h5 j (by omega) hb

/-- Claim C7: haveChain is true exactly when some output index below the
output count holds an unspent Coin, and the scan short-circuits: any view
agreeing with the given one up to the first unspent index yields true as
well, whatever it holds past that index. -/
theorem haveChain_spec (view : CacheView) (hsh : Hash) (n : Nat) :
    (computeHaveChain view hsh n = true ↔
      ∃ i, i < n ∧ IsSpent (view ⟨hsh, i⟩) = false)
  ∧ (∀ (v2 : CacheView) (i : Nat), i < n →
      IsSpent (view ⟨hsh, i⟩) = false →
      (∀ j, j < i → IsSpent (view ⟨hsh, j⟩) = true) →
      (∀ j, j ≤ i → v2 ⟨hsh, j⟩ = view ⟨hsh, j⟩) →
      computeHaveChain v2 hsh n = true) := by
  constructor
  · constructor
    · intro htrue
      by_contra hno
      push_neg at hno
      have hall : ∀ i, i < n → IsSpent (view ⟨hsh, i⟩) = true := by
        intro i hi
        cases h : IsSpent (view ⟨hsh, i⟩) with
        | false => exact absurd h (hno i hi)
        | true => rfl
      have hfalse := haveChainGo_false view hsh n n 0 fun i _ hi => hall i hi
      rw [computeHaveChain, hfalse] at htrue
      simp at htrue
    · rintro ⟨i, hi, hun⟩
      have hex : ∃ j, IsSpent (view ⟨hsh, j⟩) = false ∧ j < n := ⟨i, hun, hi⟩
      have hspec := Nat.find_spec hex
      have hmin : ∀ j, j < Nat.find hex → IsSpent (view ⟨hsh, j⟩) = true := by
        intro j hj
        have := Nat.find_min hex hj
        cases h : IsSpent (view ⟨hsh, j⟩) with
        | false => exact absurd ⟨h, by omega⟩ this
        | true => rfl
      exact haveChainGo_true view hsh n n 0 (Nat.find hex) (Nat.zero_le _)
        hspec.2 (by omega) hspec.1 fun j _ hb => hmin j hb
  · intro v2 i hi hun hminv hagree
    have hun2 : IsSpent (v2 ⟨hsh, i⟩) = false := by
      rw [hagree i le_rfl]; exact hun
    have hmin2 : ∀ j, 0 ≤ j → j < i → IsSpent (v2 ⟨hsh, j⟩) = true := by
      intro j _ hj
      rw [hagree j (by omega)]; exact hminv j hj
    exact haveChainGo_true v2 hsh n n 0 i (Nat.zero_le i) hi (by omega) hun2 hmin2

/-- Demo view with its only unspent output at index 1. -/
def demoView2 : CacheView := fun p => if p.index = 1 then some demoCoin else none

/-- Witness for claim C7: index 1 of three is unspent, so haveChain is true. -/
theorem haveChain_spec_witness : computeHaveChain demoView2 [7] 3 = true :=
  (haveChain_spec demoView2 [7] 3).1.mpr ⟨1, by omega, by decide⟩

/-- Claim C8: the sendrawtransaction reply for the same request bytes and
pool is the same hash string whatever the coin view holds; the haveChain
flag is computed but never branched on. -/
theorem sendRawTransaction_view_independent (st : NodeState)
    (v1 v2 : CacheView) (c : SendRawCmd) :
    handleSendRawTransaction { st with utxoCache := v1 } c =
      handleSendRawTransaction { st with utxoCache := v2 } c := by
  cases h : unserializeTx c.hexTx <;> simp [handleSendRawTransaction, h]
